import Mathlib

/-!
# Verification of the JSON parser in `src/main.rs`

This file gives a shallow embedding of the recursive-descent JSON parser
of the repository (file `src/main.rs`) and proves properties of it.

Modelling conventions:

* The Rust `String` input is modelled as a `List Char`; the read position
  `pos` is a character index.  The Rust code mixes character indexing
  (`self.src.chars().nth(self.pos)` in `peek`/`advance`) with byte
  indexing (`self.src[self.pos..self.pos + l]` in `consume_word` and
  `parse_number`); the two agree on ASCII input, which covers every input
  considered here, and the model uses character indexing throughout.
* `JsonValue::Number(f64)` holds values produced only by
  `&self.src[idx..self.pos].parse::<f64>().unwrap()` applied to a
  digit-only lexeme; the model stores the exact decimal value as a `Nat`
  (the `f64` conversion is exact for integers below `2^53`).
* Rust `panic!` is modelled by the `Res.panicked` outcome carrying the
  panic message; `Option`-returning functions return the option inside
  `Res.ok` together with the mutated parser state.
* The recursive functions of the source terminate because every loop
  iteration and every recursive call makes progress through the input.
  The embedding makes this explicit with a fuel argument: the character
  loops (`skip_whitespace`, the string loop, the digit loop) run on fuel
  `src.length - pos`, which is exactly the number of characters left and
  hence never exhausted before the loop's own exit condition; the
  mutually recursive grammar productions run on a fuel that the top-level
  entry point `runParse` sets to `4 * length + 4`, ample for the call
  depth actually reachable on an input of that length.  `Res.fuelOut` is
  an artifact of the embedding and is never produced with sufficient
  fuel; no theorem below hides behind it.
-/

/-- Outcome of a Rust computation that may `panic!`: either a normal
result, or a panic with its message.  `fuelOut` is the embedding's
out-of-fuel marker (see the module comment), never a behaviour of the
program. -/
inductive Res (α : Type) : Type where
  | ok : α → Res α
  | panicked : String → Res α
  | fuelOut : Res α
deriving DecidableEq

/-- The value model: `enum JsonValue` of `src/main.rs` (lines 4-12).
`Obj` is a `HashMap<String, JsonValue>` in Rust; it is modelled as an
association list with unique keys built by `insertKV` below.  Rust
`PartialEq` on `HashMap` compares key sets and values, ignoring order. -/
inductive JsonValue : Type where
  | null : JsonValue
  | number : Nat → JsonValue
  | string : List Char → JsonValue
  | bool : Bool → JsonValue
  | array : List JsonValue → JsonValue
  | obj : List (List Char × JsonValue) → JsonValue

/-- `HashMap::insert`: a repeated key overwrites the previous value,
otherwise the binding is added. -/
def insertKV : List (List Char × JsonValue) → List Char → JsonValue →
    List (List Char × JsonValue)
  | [], k, v => [(k, v)]
  | (k', v') :: rest, k, v =>
    if k' = k then (k, v) :: rest else (k', v') :: insertKV rest k v

/-- `struct Parser { src: String, pos: usize }` (lines 47-51). -/
structure Parser where
  src : List Char
  pos : Nat
deriving DecidableEq

/-- `Parser::new` (lines 54-56). -/
def Parser.new (src : List Char) : Parser := ⟨src, 0⟩

/-- `Parser::peek` (lines 212-214): `self.src.chars().nth(self.pos)`. -/
def Parser.peek (p : Parser) : Option Char := p.src[p.pos]?

/-- `Parser::advance` (lines 216-219): `self.pos += 1;
self.src.chars().nth(self.pos - 1)`.  Note the position is incremented
unconditionally, even when the parser is already at end of input. -/
def Parser.advance (p : Parser) : Option Char × Parser :=
  (p.src[p.pos]?, { p with pos := p.pos + 1 })

/-- `Parser::consume` (lines 72-80). -/
def Parser.consume (p : Parser) (to_match : Char) : Bool × Parser :=
  if p.peek = some to_match then (true, (p.advance).2) else (false, p)

/-- `Parser::expect` (lines 83-88): `panic!("Expected {}", to_match)` on a
lookahead mismatch, otherwise advance. -/
def Parser.expect (p : Parser) (to_match : Char) : Res Parser :=
  if p.peek ≠ some to_match then .panicked ("Expected ".push to_match)
  else .ok (p.advance).2

/-- The whitespace class of `skip_whitespace` (line 224):
`'\t' | '\n' | ' ' | '\r'`. -/
def isWs (c : Char) : Bool :=
  c == '\t' || c == '\n' || c == ' ' || c == '\r'

/-- The `while let` loop of `Parser::skip_whitespace` (lines 221-228),
bounded by the number of characters left (each iteration advances). -/
def skipWsAux : Nat → Parser → Parser
  | 0, p => p
  | n + 1, p =>
    match p.peek with
    | some c => if isWs c then skipWsAux n (p.advance).2 else p
    | none => p

/-- `Parser::skip_whitespace` (lines 221-228). -/
def Parser.skip_whitespace (p : Parser) : Parser :=
  skipWsAux (p.src.length - p.pos) p

/-- `Parser::consume_word` (lines 110-118): an exact match of `word` at
the current position, consuming it whole, otherwise no movement. -/
def Parser.consume_word (p : Parser) (word : List Char) : Bool × Parser :=
  if p.pos + word.length ≤ p.src.length ∧
      (p.src.drop p.pos).take word.length = word then
    (true, { p with pos := p.pos + word.length })
  else (false, p)

/-- `Parser::parse_null` (lines 120-126). -/
def Parser.parse_null (p : Parser) : Option JsonValue × Parser :=
  match p.consume_word "null".toList with
  | (true, p1) => (some .null, p1)
  | (false, p1) => (none, p1)

/-- `Parser::parse_bool` (lines 148-156). -/
def Parser.parse_bool (p : Parser) : Option JsonValue × Parser :=
  match p.consume_word "true".toList with
  | (true, p1) => (some (.bool true), p1)
  | (false, p1) =>
    match p1.consume_word "false".toList with
    | (true, p2) => (some (.bool false), p2)
    | (false, p2) => (none, p2)

/-- The character range `'0'..='9'` used by `parse` (line 62) and
`parse_number` (line 133). -/
def digitCh (c : Char) : Bool :=
  decide ('0' ≤ c) && decide (c ≤ '9')

/-- The first character of `rest` (if any) is not a digit: the condition
under which a digit run ends exactly at the start of `rest`. -/
def noLeadingDigit (rest : List Char) : Bool :=
  match rest.head? with
  | some c => !digitCh c
  | none => true

/-- The digit loop of `Parser::parse_number` (lines 131-138), bounded by
the number of characters left. -/
def digitLoopAux : Nat → Parser → Parser
  | 0, p => p
  | n + 1, p =>
    match p.peek with
    | some c => if digitCh c then digitLoopAux n (p.advance).2 else p
    | none => p

/-- The decimal value of a digit-only lexeme: models
`&self.src[idx..self.pos].parse::<f64>().unwrap()` (line 143), exact for
integers below `2^53`. -/
def natOfDigits (ds : List Char) : Nat :=
  ds.foldl (fun n c => n * 10 + (c.toNat - '0'.toNat)) 0

/-- `Parser::parse_number` (lines 128-146): consume a maximal digit run;
`None` if empty, otherwise `Number` of the lexeme's value. -/
def Parser.parse_number (p : Parser) : Option JsonValue × Parser :=
  let idx := p.pos
  let p2 := digitLoopAux (p.src.length - p.pos) p
  if idx = p2.pos then (none, p2)
  else (some (.number (natOfDigits ((p2.src.drop idx).take (p2.pos - idx)))), p2)

/-- The character loop of `Parser::parse_string` (lines 95-107), bounded
by the number of characters left; `self.peek()?` at end of input makes
the whole function return `None`. -/
def parseStringAux : Nat → List Char → Parser → Option JsonValue × Parser
  | 0, _, p => (none, p)
  | n + 1, acc, p =>
    match p.peek with
    | none => (none, p)
    | some c =>
      if c = '\"' then (some (.string acc), (p.advance).2)
      else parseStringAux n (acc ++ [c]) (p.advance).2

/-- `Parser::parse_string` (lines 90-108): no escape processing — every
character before the closing quote is taken literally. -/
def Parser.parse_string (p : Parser) : Option JsonValue × Parser :=
  match p.consume '\"' with
  | (false, p1) => (none, p1)
  | (true, p1) => parseStringAux (p1.src.length - p1.pos) [] p1

mutual

/-- `Parser::parse` (lines 58-70): skip whitespace, dispatch on one
lookahead character; anything unhandled (including `'-'`) returns
`None`. -/
def Parser.parse : Nat → Parser → Res (Option JsonValue × Parser)
  | 0, _ => .fuelOut
  | fuel + 1, p0 =>
    let p := p0.skip_whitespace
    match p.peek with
    | none => .ok (none, p)
    | some c =>
      if c = '\"' then .ok p.parse_string
      else if digitCh c then .ok p.parse_number
      else if c = 't' ∨ c = 'f' then .ok p.parse_bool
      else if c = '[' then Parser.parse_array fuel p
      else if c = 'n' then .ok p.parse_null
      else if c = '{' then Parser.parse_object fuel p
      else .ok (none, p)

/-- `Parser::parse_array` (lines 158-178): `[`, element loop,
`self.expect(']')` (which panics on mismatch). -/
def Parser.parse_array : Nat → Parser → Res (Option JsonValue × Parser)
  | 0, _ => .fuelOut
  | fuel + 1, p =>
    match p.consume '[' with
    | (false, p1) => .ok (none, p1)
    | (true, p1) =>
      match Parser.parse_array_loop fuel [] p1 with
      | .fuelOut => .fuelOut
      | .panicked m => .panicked m
      | .ok (result, p2) =>
        match p2.expect ']' with
        | .fuelOut => .fuelOut
        | .panicked m => .panicked m
        | .ok p3 => .ok (some (.array result), p3)

/-- The element loop of `parse_array` (lines 161-172): parse a value
(`None` breaks the loop), skip whitespace, continue on `,`. -/
def Parser.parse_array_loop :
    Nat → List JsonValue → Parser → Res (List JsonValue × Parser)
  | 0, _, _ => .fuelOut
  | fuel + 1, acc, p =>
    match Parser.parse fuel p with
    | .fuelOut => .fuelOut
    | .panicked m => .panicked m
    | .ok (none, p1) => .ok (acc, p1)
    | .ok (some v, p1) =>
      match (p1.skip_whitespace).consume ',' with
      | (true, p2) => Parser.parse_array_loop fuel (acc ++ [v]) p2
      | (false, p2) => .ok (acc ++ [v], p2)

/-- `Parser::parse_object` (lines 180-209): `{`, member loop,
`self.expect('}')`. -/
def Parser.parse_object : Nat → Parser → Res (Option JsonValue × Parser)
  | 0, _ => .fuelOut
  | fuel + 1, p =>
    match p.consume '{' with
    | (false, p1) => .ok (none, p1)
    | (true, p1) =>
      match Parser.parse_object_loop fuel [] p1 with
      | .fuelOut => .fuelOut
      | .panicked m => .panicked m
      | .ok (map, p2) =>
        match p2.expect '}' with
        | .fuelOut => .fuelOut
        | .panicked m => .panicked m
        | .ok p3 => .ok (some (.obj map), p3)

/-- The member loop of `parse_object` (lines 183-203): a key that parses
as a non-string value is `panic!("Expected a string value as a key")`; a
missing value after the colon is `panic!("Expected a value for the key
{key}")`. -/
def Parser.parse_object_loop :
    Nat → List (List Char × JsonValue) → Parser →
    Res (List (List Char × JsonValue) × Parser)
  | 0, _, _ => .fuelOut
  | fuel + 1, map, p =>
    match Parser.parse fuel p with
    | .fuelOut => .fuelOut
    | .panicked m => .panicked m
    | .ok (none, p1) => .ok (map, p1)
    | .ok (some (.string k), p1) =>
      match (p1.skip_whitespace).expect ':' with
      | .fuelOut => .fuelOut
      | .panicked m => .panicked m
      | .ok p2 =>
        match Parser.parse fuel p2 with
        | .fuelOut => .fuelOut
        | .panicked m => .panicked m
        | .ok (none, _) =>
          .panicked ("Expected a value for the key " ++ String.mk k)
        | .ok (some v, p3) =>
          match (p3.skip_whitespace).consume ',' with
          | (true, p4) => Parser.parse_object_loop fuel (insertKV map k v) p4
          | (false, p4) => .ok (insertKV map k v, p4)
    | .ok (some _, _) => .panicked "Expected a string value as a key"

end

/-- The top-level parse of an input text: `Parser::new` followed by
`Parser::parse`, with fuel ample for the input's length (see the module
comment). -/
def runParse (s : List Char) : Res (Option JsonValue × Parser) :=
  Parser.parse (4 * s.length + 4) (Parser.new s)

mutual

/-- `impl fmt::Display for JsonValue` (lines 14-45).  Strings are written
as `"\"{}\""` with no escaping; numbers by `{}` on the `f64` (decimal
digits for the integral values the parser produces). -/
def render : JsonValue → List Char
  | .null => "null".toList
  | .bool b => (if b then "true" else "false").toList
  | .number n => (Nat.repr n).toList
  | .string s => '\"' :: s ++ ['\"']
  | .array xs => '[' :: renderItems xs ++ [']']
  | .obj m => '{' :: renderEntries m ++ ['}']

/-- The array item loop of `Display` (lines 22-28): comma before every
item except the first. -/
def renderItems : List JsonValue → List Char
  | [] => []
  | x :: xs => render x ++ renderItemsTail xs

/-- Items after the first, each preceded by a comma. -/
def renderItemsTail : List JsonValue → List Char
  | [] => []
  | x :: xs => ',' :: render x ++ renderItemsTail xs

/-- The object member loop of `Display` (lines 32-40):
`"\"{}\":{}"` per member, comma before every member except the first. -/
def renderEntries : List (List Char × JsonValue) → List Char
  | [] => []
  | (k, v) :: es => ('\"' :: k ++ '\"' :: ':' :: render v) ++ renderEntriesTail es

/-- Members after the first, each preceded by a comma. -/
def renderEntriesTail : List (List Char × JsonValue) → List Char
  | [] => []
  | (k, v) :: es =>
    ',' :: ('\"' :: k ++ '\"' :: ':' :: render v) ++ renderEntriesTail es

end

/-- The `d+1`-fold nested empty array: `nestedArr 0 = [ ]`,
`nestedArr (n+1) = [ nestedArr n ]`. -/
def nestedArr : Nat → JsonValue
  | 0 => .array []
  | n + 1 => .array [nestedArr n]

/-- The input of `d` opening brackets followed by `d` closing brackets. -/
def mkNested (d : Nat) : List Char :=
  List.replicate d '[' ++ List.replicate d ']'


/-! ## Cursor and lexical helper lemmas -/

/-- Peeking at the boundary between a consumed prefix and the rest of the
input sees the first character of the rest. -/
theorem peek_append (pre rest : List Char) :
    (Parser.mk (pre ++ rest) pre.length).peek = rest.head? := by
  cases rest with
  | nil => simp [Parser.peek]
  | cons c cs =>
    simp only [Parser.peek]
    rw [List.getElem?_append_right (le_refl _)]
    simp

/-- `consume` succeeds and advances when the lookahead matches. -/
theorem consume_peek_eq (p : Parser) (c : Char) (h : p.peek = some c) :
    p.consume c = (true, ⟨p.src, p.pos + 1⟩) := by
  simp [Parser.consume, h, Parser.advance]

/-- `consume` leaves the cursor untouched on a mismatching lookahead. -/
theorem consume_peek_ne (p : Parser) (c c' : Char) (h : p.peek = some c')
    (hne : c' ≠ c) : p.consume c = (false, p) := by
  simp [Parser.consume, h, hne]

/-- `consume` leaves the cursor untouched at end of input. -/
theorem consume_peek_none (p : Parser) (c : Char) (h : p.peek = none) :
    p.consume c = (false, p) := by
  simp [Parser.consume, h]

/-- `expect` succeeds and advances when the lookahead matches. -/
theorem expect_peek_eq (p : Parser) (c : Char) (h : p.peek = some c) :
    p.expect c = .ok ⟨p.src, p.pos + 1⟩ := by
  simp [Parser.expect, h, Parser.advance]

/-- The whitespace loop does nothing on a non-whitespace lookahead. -/
theorem skipWsAux_not_ws (n : Nat) (p : Parser) (c : Char)
    (hc : p.peek = some c) (hw : isWs c = false) : skipWsAux n p = p := by
  cases n with
  | zero => rfl
  | succ n => simp [skipWsAux, hc, hw]

/-- `skip_whitespace` does nothing on a non-whitespace lookahead. -/
theorem skip_whitespace_not_ws (p : Parser) (c : Char)
    (hc : p.peek = some c) (hw : isWs c = false) :
    p.skip_whitespace = p :=
  skipWsAux_not_ws _ p c hc hw

/-- A digit is not whitespace. -/
theorem digit_not_ws {c : Char} (h : digitCh c = true) : isWs c = false := by
  have h0 : '0' ≤ c := by
    simp only [digitCh, Bool.and_eq_true, decide_eq_true_eq] at h
    exact h.1
  by_contra hw
  simp only [Bool.not_eq_false, isWs, Bool.or_eq_true, beq_iff_eq] at hw
  rcases hw with ((rfl | rfl) | rfl) | rfl <;> exact absurd h0 (by decide)

/-! ## Dispatch lemmas for `Parser::parse` -/

/-- With a lookahead handled by no production, `parse` returns `None`
(line 67 of the source). -/
theorem parse_succ_unhandled (fuel : Nat) (p : Parser) (c : Char)
    (hc : (p.skip_whitespace).peek = some c)
    (h1 : c ≠ '\"') (h2 : digitCh c = false) (h3 : c ≠ 't') (h4 : c ≠ 'f')
    (h5 : c ≠ '[') (h6 : c ≠ 'n') (h7 : c ≠ '{') :
    Parser.parse (fuel + 1) p = .ok (none, p.skip_whitespace) := by
  simp [Parser.parse, hc, h1, h2, h3, h4, h5, h6, h7]

/-- A digit lookahead dispatches to `parse_number`. -/
theorem parse_succ_digit (fuel : Nat) (p : Parser) (c : Char)
    (hc : (p.skip_whitespace).peek = some c) (hd : digitCh c = true) :
    Parser.parse (fuel + 1) p = .ok (p.skip_whitespace).parse_number := by
  have h1 : c ≠ '\"' := by rintro rfl; exact absurd hd (by decide)
  simp [Parser.parse, hc, h1, hd]

/-- A `'['` lookahead dispatches to `parse_array`. -/
theorem parse_succ_lbracket (fuel : Nat) (p : Parser)
    (hc : (p.skip_whitespace).peek = some '[') :
    Parser.parse (fuel + 1) p = Parser.parse_array fuel p.skip_whitespace := by
  simp [Parser.parse, hc, show ('[' : Char) ≠ '\"' by decide,
    show digitCh '[' = false by decide, show ('[' : Char) ≠ 't' by decide,
    show ('[' : Char) ≠ 'f' by decide]

/-- A `'t'`/`'f'` lookahead dispatches to `parse_bool`. -/
theorem parse_succ_bool (fuel : Nat) (p : Parser) (c : Char)
    (hc : (p.skip_whitespace).peek = some c) (hb : c = 't' ∨ c = 'f') :
    Parser.parse (fuel + 1) p = .ok (p.skip_whitespace).parse_bool := by
  rcases hb with rfl | rfl
  · simp [Parser.parse, hc, show ('t' : Char) ≠ '\"' by decide,
      show digitCh 't' = false by decide]
  · simp [Parser.parse, hc, show ('f' : Char) ≠ '\"' by decide,
      show digitCh 'f' = false by decide]

/-! ## The digit run of `parse_number` -/

/-- `noLeadingDigit` in elimination form. -/
theorem noLeadingDigit_head (rest : List Char)
    (h : noLeadingDigit rest = true) :
    ∀ c, rest.head? = some c → digitCh c = false := by
  intro c hc
  cases rest with
  | nil => simp at hc
  | cons d cs =>
    simp only [List.head?_cons, Option.some.injEq] at hc
    subst hc
    simpa [noLeadingDigit] using h

/-- The digit loop consumes exactly a maximal digit run. -/
theorem digitLoopAux_run (ds : List Char) : ∀ (n : Nat) (pre rest : List Char),
    (∀ c ∈ ds, digitCh c = true) →
    (∀ c, rest.head? = some c → digitCh c = false) →
    ds.length ≤ n →
    digitLoopAux n ⟨pre ++ (ds ++ rest), pre.length⟩ =
      ⟨pre ++ (ds ++ rest), pre.length + ds.length⟩ := by
  induction ds with
  | nil =>
    intro n pre rest _ hrest _
    simp only [List.nil_append, List.length_nil, Nat.add_zero]
    cases n with
    | zero => rfl
    | succ n =>
      have hpeek := peek_append pre rest
      cases hh : rest.head? with
      | none => simp [digitLoopAux, hpeek, hh]
      | some c => simp [digitLoopAux, hpeek, hh, hrest c hh]
  | cons d ds ih =>
    intro n pre rest hds hrest hlen
    cases n with
    | zero => simp at hlen
    | succ n =>
      have hd : digitCh d = true := hds d (List.mem_cons_self d ds)
      have hpeek : (Parser.mk (pre ++ d :: (ds ++ rest)) pre.length).peek = some d := by
        simpa using peek_append pre (d :: (ds ++ rest))
      have step : digitLoopAux (n + 1) ⟨pre ++ (d :: ds ++ rest), pre.length⟩ =
          digitLoopAux n ⟨pre ++ (d :: ds ++ rest), pre.length + 1⟩ := by
        simp [digitLoopAux, hpeek, hd, Parser.advance]
      rw [step]
      have hre : pre ++ (d :: ds ++ rest) = (pre ++ [d]) ++ (ds ++ rest) := by simp
      have hpos : pre.length + 1 = (pre ++ [d]).length := by simp
      rw [hre, hpos,
        ih n (pre ++ [d]) rest (fun c hc => hds c (List.mem_cons_of_mem d hc))
          hrest (by simp at hlen; omega)]
      congr 1
      simp [List.length_append]
      omega

/-- `parse_number` on a nonempty maximal digit run returns `Number` of its
decimal value and stops right after the run. -/
theorem parse_number_run (ds pre rest : List Char)
    (hne : ds ≠ []) (hds : ∀ c ∈ ds, digitCh c = true)
    (hrest : ∀ c, rest.head? = some c → digitCh c = false) :
    Parser.parse_number ⟨pre ++ (ds ++ rest), pre.length⟩ =
      (some (.number (natOfDigits ds)),
        ⟨pre ++ (ds ++ rest), pre.length + ds.length⟩) := by
  have hpos : 0 < ds.length := List.length_pos.mpr hne
  have hfuel : ds.length ≤ (pre ++ (ds ++ rest)).length - pre.length := by
    simp [List.length_append]
  simp only [Parser.parse_number]
  rw [digitLoopAux_run ds _ pre rest hds hrest hfuel]
  dsimp only
  rw [if_neg (by omega)]
  have hsub : pre.length + ds.length - pre.length = ds.length := by omega
  rw [hsub, List.drop_left, List.take_left]

/-- The top-level parse of a digit run followed by non-digit trailing
input: the run is consumed, its value returned, the rest left unread. -/
theorem runParse_digit_run (ds rest : List Char)
    (hne : ds ≠ []) (hds : ∀ c ∈ ds, digitCh c = true)
    (hrest : ∀ c, rest.head? = some c → digitCh c = false) :
    runParse (ds ++ rest) =
      .ok (some (.number (natOfDigits ds)), ⟨ds ++ rest, ds.length⟩) := by
  obtain ⟨d, ds', rfl⟩ : ∃ d ds', ds = d :: ds' := by
    cases ds with
    | nil => exact absurd rfl hne
    | cons d ds' => exact ⟨d, ds', rfl⟩
  have hd : digitCh d = true := hds d (List.mem_cons_self d ds')
  unfold runParse Parser.new
  obtain ⟨f, hf⟩ : ∃ f, 4 * ((d :: ds') ++ rest).length + 4 = f + 1 :=
    ⟨4 * ((d :: ds') ++ rest).length + 3, by omega⟩
  rw [hf]
  have hpeek0 : (Parser.mk ((d :: ds') ++ rest) 0).peek = some d := by
    simp [Parser.peek]
  have hskip : (Parser.mk ((d :: ds') ++ rest) 0).skip_whitespace =
      Parser.mk ((d :: ds') ++ rest) 0 :=
    skip_whitespace_not_ws _ d hpeek0 (digit_not_ws hd)
  rw [parse_succ_digit f _ d (by rw [hskip]; exact hpeek0) hd, hskip]
  have h2 := parse_number_run (d :: ds') [] rest hne hds hrest
  simp only [List.nil_append, List.length_nil, Nat.zero_add] at h2
  rw [h2]

/-! ## Claim theorems -/

/-- Claim C1: the claim says no execution path panics on malformed input;
the code panics.  Evaluating the top-level parse: a non-string object key
panics in `parse_object` (line 187), a missing `']'` panics in `expect`
(line 85) called from `parse_array` (line 173), and a missing value after
`':'` panics in `parse_object` (line 196). -/
theorem parse_panics_on_malformed_input :
    runParse "{1}".toList = .panicked "Expected a string value as a key" ∧
    runParse "[1".toList = .panicked "Expected ]" ∧
    runParse "\x7b\"a\":\x7d".toList = .panicked "Expected a value for the key a" :=
  ⟨by rfl, by rfl, by rfl⟩

/-- Claim C2: the claim says `parse (render v) = v` for every
representable `v`, with quotes escaped by the renderer; the renderer
(line 20) does not escape, so the string value consisting of one quote
character renders to three quote characters, which re-parse to the empty
string value, not the original. -/
theorem render_unescaped_quote_defeats_roundtrip :
    render (JsonValue.string ['\"']) = ['\"', '\"', '\"'] ∧
    runParse (render (JsonValue.string ['\"'])) =
      .ok (some (JsonValue.string []), ⟨['\"', '\"', '\"'], 2⟩) ∧
    JsonValue.string [] ≠ JsonValue.string ['\"'] :=
  ⟨by rfl, by rfl, by simp⟩

/-- Claim C3: the claim says the full JSON number grammar is supported
and `'-'` dispatches to the number production; the code's dispatch
(lines 60-69) has no `'-'` arm, so "-5" parses to `None`, and the digit
loop (lines 131-138) stops at `'.'` and `'e'`, so "1.5" and "2e3" parse
to `Number(1)` and `Number(2)`. -/
theorem number_grammar_limited_to_digit_runs :
    runParse "-5".toList = .ok (none, ⟨"-5".toList, 0⟩) ∧
    runParse "1.5".toList = .ok (some (.number 1), ⟨"1.5".toList, 1⟩) ∧
    runParse "2e3".toList = .ok (some (.number 2), ⟨"2e3".toList, 1⟩) :=
  ⟨by rfl, by rfl, by rfl⟩

/-- Claim C4: the claim says `A` is decoded so that the quoted
string `aAb` parses to `String("aAb")`; `parse_string`
(lines 90-108) has no escape handling and copies the eight characters
`a`, `\`, `u`, `0`, `0`, `4`, `1`, `b` literally. -/
theorem string_escapes_taken_literally :
    runParse "\"a\\u0041b\"".toList =
      .ok (some (.string "a\\u0041b".toList), ⟨"\"a\\u0041b\"".toList, 10⟩) ∧
    "a\\u0041b".toList ≠ "aAb".toList :=
  ⟨by rfl, by decide⟩

/-- Claim C5 counterexample: the claim says `parse("[1,2,]")` fails; it
succeeds with `Array([Number(1), Number(2)])`, consuming all six
characters. -/
theorem trailing_comma_array_parses :
    runParse "[1,2,]".toList =
      .ok (some (.array [.number 1, .number 2]), ⟨"[1,2,]".toList, 6⟩) := by
  rfl

/-- Claim C5 (amended): the element loop of `parse_array` ends, keeping
the elements accumulated so far, whenever the lookahead is `']'` — in
particular right after a trailing comma, which is why `"[1,2,]"` parses
successfully instead of failing. -/
theorem array_loop_ends_at_rbracket (fuel : Nat) (acc : List JsonValue)
    (p : Parser) (hfuel : 2 ≤ fuel) (hpeek : p.peek = some ']') :
    Parser.parse_array_loop fuel acc p = .ok (acc, p) := by
  obtain ⟨f, rfl⟩ : ∃ f, fuel = f + 1 + 1 := ⟨fuel - 2, by omega⟩
  have hskip := skip_whitespace_not_ws p ']' hpeek (by decide)
  have hparse : Parser.parse (f + 1) p = .ok (none, p) := by
    rw [parse_succ_unhandled f p ']' (by rw [hskip]; exact hpeek) (by decide)
      (by decide) (by decide) (by decide) (by decide) (by decide) (by decide),
      hskip]
  simp [Parser.parse_array_loop, hparse]

/-- Witness for `array_loop_ends_at_rbracket` at a concrete state. -/
theorem array_loop_ends_at_rbracket_witness :
    2 ≤ 2 ∧ (Parser.mk "]".toList 0).peek = some ']' ∧
    Parser.parse_array_loop 2 [] ⟨"]".toList, 0⟩ = .ok ([], ⟨"]".toList, 0⟩) :=
  ⟨le_refl 2, by rfl, array_loop_ends_at_rbracket 2 [] ⟨"]".toList, 0⟩ (le_refl 2) (by rfl)⟩

/-- Claim C6 counterexample: the claim says `parse("01234")` fails with
`InvalidNumber`; it succeeds with `Number(1234)` (as the code's own unit
test `test_parse_number` asserts). -/
theorem leading_zero_numeral_parses :
    runParse "01234".toList =
      .ok (some (.number 1234), ⟨"01234".toList, 5⟩) := by
  rfl

/-- Claim C6 (amended): a numeral with a leading zero followed by more
digits is accepted — the parser consumes the maximal digit run and
returns `Number` of its decimal value; there is no `InvalidNumber`
error in the code. -/
theorem leading_zero_digit_run_returns_number (ds rest : List Char)
    (_h0 : ds.head? = some '0') (h2 : 2 ≤ ds.length)
    (hds : ds.all digitCh = true) (hrest : noLeadingDigit rest = true) :
    runParse (ds ++ rest) =
      .ok (some (.number (natOfDigits ds)), ⟨ds ++ rest, ds.length⟩) := by
  have hne : ds ≠ [] := by
    intro h
    rw [h] at h2
    simp at h2
  exact runParse_digit_run ds rest hne (List.all_eq_true.mp hds)
    (noLeadingDigit_head rest hrest)

/-- Witness for `leading_zero_digit_run_returns_number` at `"01"`. -/
theorem leading_zero_digit_run_returns_number_witness :
    ("01".toList).head? = some '0' ∧ 2 ≤ ("01".toList).length ∧
    ("01".toList).all digitCh = true ∧ noLeadingDigit [] = true ∧
    runParse ("01".toList ++ []) =
      .ok (some (.number (natOfDigits "01".toList)),
        ⟨"01".toList ++ [], ("01".toList).length⟩) :=
  ⟨by rfl, by decide, by decide, by rfl,
    leading_zero_digit_run_returns_number "01".toList [] (by rfl) (by decide)
      (by decide) (by rfl)⟩

/-- Claim C7 counterexample: the claim says `"truex"` is not accepted as
the literal `true` with the `x` left unconsumed; the top-level parse
returns `Bool(true)` with the position at 4, one short of the length. -/
theorem truex_accepted_with_unconsumed_rest :
    runParse "truex".toList = .ok (some (.bool true), ⟨"truex".toList, 4⟩) ∧
    4 < ("truex".toList).length :=
  ⟨by rfl, by decide⟩

/-- Claim C7 (amended): `consume_word` is an exact substring match with
no boundary check, so `true` followed by anything parses as `Bool(true)`
with the trailing input left unconsumed; no caller re-validates it. -/
theorem true_prefix_parses_ignoring_rest (rest : List Char) :
    runParse ("true".toList ++ rest) =
      .ok (some (.bool true), ⟨"true".toList ++ rest, 4⟩) := by
  unfold runParse Parser.new
  obtain ⟨f, hf⟩ : ∃ f, 4 * ("true".toList ++ rest).length + 4 = f + 1 :=
    ⟨4 * ("true".toList ++ rest).length + 3, by omega⟩
  rw [hf]
  have hpeek : (Parser.mk ("true".toList ++ rest) 0).peek = some 't' := by
    simp [Parser.peek]
  have hskip := skip_whitespace_not_ws (Parser.mk ("true".toList ++ rest) 0)
    't' hpeek (by decide)
  rw [parse_succ_bool f _ 't' (by rw [hskip]; exact hpeek) (Or.inl rfl), hskip]
  have hcw : (Parser.mk ("true".toList ++ rest) 0).consume_word "true".toList =
      (true, ⟨"true".toList ++ rest, 4⟩) := by
    simp only [Parser.consume_word]
    rw [if_pos ⟨by simp [List.length_append], by rw [List.drop_zero, List.take_left]⟩]
    rfl
  have hpb : (Parser.mk ("true".toList ++ rest) 0).parse_bool =
      (some (.bool true), ⟨"true".toList ++ rest, 4⟩) := by
    rw [Parser.parse_bool, hcw]
  rw [hpb]

/-- Witness for `true_prefix_parses_ignoring_rest` at `"true!"`. -/
theorem true_prefix_parses_ignoring_rest_witness :
    runParse ("true".toList ++ "!".toList) =
      .ok (some (.bool true), ⟨"true".toList ++ "!".toList, 4⟩) :=
  true_prefix_parses_ignoring_rest "!".toList

/-- Claim C9 counterexample: the claim says the position never exceeds
the input length and `advance` at end of input leaves it unchanged; on
the empty input, one `advance` returns `None` yet moves the position to
1, past the length 0. -/
theorem advance_at_end_overruns_length :
    Parser.advance ⟨([] : List Char), 0⟩ = (none, ⟨[], 1⟩) ∧
    ¬ ((Parser.advance ⟨([] : List Char), 0⟩).2.pos ≤ ([] : List Char).length) :=
  ⟨by rfl, by decide⟩

/-- Claim C9 (amended): `advance` increments the position by one
unconditionally; on a non-empty remainder it returns the character at
the old position (one codepoint consumed), while at end of input it
returns `None` but still moves the position past the input length. -/
theorem advance_increments_unconditionally (p : Parser) :
    (p.advance).2.src = p.src ∧ (p.advance).2.pos = p.pos + 1 ∧
    (∀ c, p.peek = some c → (p.advance).1 = some c) ∧
    (p.pos = p.src.length → (p.advance).1 = none ∧
      p.src.length < (p.advance).2.pos) := by
  refine ⟨rfl, rfl, fun c h => h, fun h => ⟨?_, ?_⟩⟩
  · simp [Parser.advance, h]
  · simp [Parser.advance, h]

/-- Witness for `advance_increments_unconditionally` at a parser that is
at end of input. -/
theorem advance_increments_unconditionally_witness :
    ((Parser.mk ['a'] 1).advance).1 = none ∧
    (['a'] : List Char).length < ((Parser.mk ['a'] 1).advance).2.pos :=
  (advance_increments_unconditionally ⟨['a'], 1⟩).2.2.2 (by rfl)

/-- Claim C10: the top-level parse stops at the end of the first
complete value and ignores trailing input: a maximal digit run followed
by non-digit trailing input parses to its `Number`, the position resting
at the end of the run, with the rest unread and no error about it. -/
theorem parse_ignores_trailing_input_after_number (ds rest : List Char)
    (hne : ds ≠ []) (hds : ds.all digitCh = true)
    (hrest : noLeadingDigit rest = true) :
    runParse (ds ++ rest) =
      .ok (some (.number (natOfDigits ds)), ⟨ds ++ rest, ds.length⟩) :=
  runParse_digit_run ds rest hne (List.all_eq_true.mp hds)
    (noLeadingDigit_head rest hrest)

/-- Witness for `parse_ignores_trailing_input_after_number` at
`"1234 abc"`: the result is `Number(1234)` with position 4. -/
theorem parse_ignores_trailing_input_after_number_witness :
    ("1234".toList : List Char) ≠ [] ∧ ("1234".toList).all digitCh = true ∧
    noLeadingDigit " abc".toList = true ∧
    runParse ("1234".toList ++ " abc".toList) =
      .ok (some (.number (natOfDigits "1234".toList)),
        ⟨"1234".toList ++ " abc".toList, ("1234".toList).length⟩) :=
  ⟨by decide, by decide, by decide,
    parse_ignores_trailing_input_after_number "1234".toList " abc".toList
      (by decide) (by decide) (by decide)⟩

/-! ## Deeply nested arrays (claim C8) -/

/-- `parse` on `d+1` nested brackets (with arbitrary consumed prefix and
trailing input) succeeds with the `d+1`-deep nested empty array, given
fuel linear in the depth.  There is no depth limit anywhere in the
code: the recursion is bounded only by the input itself. -/
theorem parse_nested (n : Nat) : ∀ (fuel : Nat) (pre rest : List Char),
    3 * n + 4 ≤ fuel →
    Parser.parse fuel
      ⟨pre ++ (List.replicate (n + 1) '[' ++ (List.replicate (n + 1) ']' ++ rest)),
        pre.length⟩ =
      .ok (some (nestedArr n),
        ⟨pre ++ (List.replicate (n + 1) '[' ++ (List.replicate (n + 1) ']' ++ rest)),
          pre.length + (2 * n + 2)⟩) := by
  induction n with
  | zero =>
    intro fuel pre rest hfuel
    obtain ⟨f, rfl⟩ : ∃ f, fuel = f + 1 + 1 + 1 + 1 := ⟨fuel - 4, by omega⟩
    simp only [Nat.zero_add, Nat.mul_zero, List.replicate_one, List.singleton_append]
    have hpeek : (Parser.mk (pre ++ ('[' :: ']' :: rest)) pre.length).peek =
        some '[' := by
      simpa using peek_append pre ('[' :: ']' :: rest)
    have hskip := skip_whitespace_not_ws _ '[' hpeek (by decide)
    rw [parse_succ_lbracket (f + 1 + 1 + 1) _ (by rw [hskip]; exact hpeek), hskip]
    have hcons := consume_peek_eq _ '[' hpeek
    simp only [Parser.parse_array, hcons]
    have hsrc2 : pre ++ ('[' :: ']' :: rest) = (pre ++ ['[']) ++ (']' :: rest) := by
      simp
    have hpos2 : pre.length + 1 = (pre ++ ['[']).length := by simp
    have hpeek2 : (Parser.mk (pre ++ ('[' :: ']' :: rest)) (pre.length + 1)).peek =
        some ']' := by
      rw [hsrc2, hpos2]
      simpa using peek_append (pre ++ ['[']) (']' :: rest)
    have hskip2 := skip_whitespace_not_ws _ ']' hpeek2 (by decide)
    have hparse2 : Parser.parse (f + 1)
        (Parser.mk (pre ++ ('[' :: ']' :: rest)) (pre.length + 1)) =
        .ok (none, Parser.mk (pre ++ ('[' :: ']' :: rest)) (pre.length + 1)) := by
      rw [parse_succ_unhandled f _ ']' (by rw [hskip2]; exact hpeek2) (by decide)
        (by decide) (by decide) (by decide) (by decide) (by decide) (by decide),
        hskip2]
    simp only [Parser.parse_array_loop, hparse2]
    rw [expect_peek_eq _ ']' hpeek2]
    norm_num [nestedArr]
  | succ n ih =>
    intro fuel pre rest hfuel
    obtain ⟨f, rfl⟩ : ∃ f, fuel = f + 1 + 1 + 1 + 1 := ⟨fuel - 4, by omega⟩
    have h1 : List.replicate (n + 1 + 1) '[' = '[' :: List.replicate (n + 1) '[' := by
      rw [List.replicate_succ]
    have h2 : List.replicate (n + 1 + 1) ']' = List.replicate (n + 1) ']' ++ [']'] := by
      rw [List.replicate_succ']
    have hdecomp : List.replicate (n + 1 + 1) '[' ++ (List.replicate (n + 1 + 1) ']' ++ rest) =
        '[' :: (List.replicate (n + 1) '[' ++ (List.replicate (n + 1) ']' ++ (']' :: rest))) := by
      rw [h1, h2]
      simp
    rw [hdecomp]
    have hpeek : (Parser.mk
        (pre ++ ('[' :: (List.replicate (n + 1) '[' ++ (List.replicate (n + 1) ']' ++ (']' :: rest)))))
        pre.length).peek = some '[' := by
      simpa using peek_append pre
        ('[' :: (List.replicate (n + 1) '[' ++ (List.replicate (n + 1) ']' ++ (']' :: rest))))
    have hskip := skip_whitespace_not_ws _ '[' hpeek (by decide)
    rw [parse_succ_lbracket (f + 1 + 1 + 1) _ (by rw [hskip]; exact hpeek), hskip]
    have hcons := consume_peek_eq _ '[' hpeek
    simp only [Parser.parse_array, hcons]
    simp only [Parser.parse_array_loop]
    have hsrc2 : pre ++ ('[' :: (List.replicate (n + 1) '[' ++ (List.replicate (n + 1) ']' ++ (']' :: rest)))) =
        (pre ++ ['[']) ++ (List.replicate (n + 1) '[' ++ (List.replicate (n + 1) ']' ++ (']' :: rest))) := by
      simp
    have hpos2 : pre.length + 1 = (pre ++ ['[']).length := by simp
    rw [hsrc2, hpos2, ih (f + 1) (pre ++ ['[']) (']' :: rest) (by omega)]
    have hsrc3 : (pre ++ ['[']) ++ (List.replicate (n + 1) '[' ++ (List.replicate (n + 1) ']' ++ (']' :: rest))) =
        ((pre ++ ['[']) ++ (List.replicate (n + 1) '[' ++ List.replicate (n + 1) ']')) ++ (']' :: rest) := by
      simp
    have hpos3 : (pre ++ ['[']).length + (2 * n + 2) =
        ((pre ++ ['[']) ++ (List.replicate (n + 1) '[' ++ List.replicate (n + 1) ']')).length := by
      simp [List.length_append, List.length_replicate]
      omega
    have hpeek3 : (Parser.mk
        ((pre ++ ['[']) ++ (List.replicate (n + 1) '[' ++ (List.replicate (n + 1) ']' ++ (']' :: rest))))
        ((pre ++ ['[']).length + (2 * n + 2))).peek = some ']' := by
      rw [hsrc3, hpos3]
      simpa using peek_append
        ((pre ++ ['[']) ++ (List.replicate (n + 1) '[' ++ List.replicate (n + 1) ']')) (']' :: rest)
    have hskip3 := skip_whitespace_not_ws _ ']' hpeek3 (by decide)
    have hcons3 := consume_peek_ne _ ',' ']' hpeek3 (by decide)
    simp only [hskip3, hcons3, expect_peek_eq _ ']' hpeek3]
    simp only [nestedArr, List.nil_append]
    simp only [Res.ok.injEq, Prod.mk.injEq, Parser.mk.injEq, List.length_append,
      List.length_cons, List.length_nil, true_and, and_true]
    omega

/-- The input of 1001 nested arrays, one more than the claimed default
depth limit of 1000. -/
theorem deeply_nested_arrays_parse_successfully :
    runParse (mkNested 1001) =
      .ok (some (nestedArr 1000), ⟨mkNested 1001, 2002⟩) := by
  have hlen : (mkNested 1001).length = 2002 := by norm_num [mkNested]
  unfold runParse Parser.new
  rw [hlen]
  have h := parse_nested 1000 (4 * 2002 + 4) [] [] (by norm_num)
  simp only [List.nil_append, List.append_nil, List.length_nil] at h
  norm_num at h
  unfold mkNested
  exact h
